import Mathlib

/-
  Verification of the polar-vector physics core of the physics-simulation
  repository: the Angle and PolarVector algebra, the CircleBody state with
  its velocity-Verlet update, and the force laws (orbital and pairwise
  gravitational), embedded shallowly over the real numbers.
-/

namespace PhysicsSim

open Real

noncomputable section

/-- Floor-style modulo by 360, the mathematical content of Python's percent
operator on floats with a positive divisor: the result takes the divisor's
sign, i.e. equals `d - 360 * floor (d / 360)`. -/
def fmod360 (d : ℝ) : ℝ := d - 360 * ⌊d / 360⌋

/-- Degrees-valued angle; mirrors the `Angle` class. -/
structure Angle where
  degrees : ℝ

/-- Embeds the `Angle` constructor, which stores `degrees % 360`. -/
def Angle.make (d : ℝ) : Angle := ⟨fmod360 d⟩

/-- Embeds the `Angle.angle` property: the stored degrees converted to
radians by `math.radians`. -/
def Angle.angle (a : Angle) : ℝ := a.degrees * π / 180

/-- Embeds addition on `Angle`, which constructs a new normalized angle. -/
def Angle.add (a b : Angle) : Angle := Angle.make (a.degrees + b.degrees)

/-- Embeds subtraction on `Angle`. -/
def Angle.sub (a b : Angle) : Angle := Angle.make (a.degrees - b.degrees)

/-- Embeds `math.atan2 y x`: the argument of the complex number `x + y*i`. -/
def atan2 (y x : ℝ) : ℝ := Complex.arg ⟨x, y⟩

/-- Magnitude-and-angle vector; mirrors the `PolarVector` class. -/
structure PolarVector where
  magnitude : ℝ
  angle : Angle

/-- Embeds `PolarVector.from_cartesian`. -/
def PolarVector.from_cartesian (x y : ℝ) : PolarVector :=
  ⟨Real.sqrt (x ^ 2 + y ^ 2), Angle.make (atan2 y x * 180 / π)⟩

/-- Embeds the `PolarVector.x` property. -/
def PolarVector.x (v : PolarVector) : ℝ :=
  v.magnitude * Real.cos v.angle.angle

/-- Embeds the `PolarVector.y` property. -/
def PolarVector.y (v : PolarVector) : ℝ :=
  v.magnitude * Real.sin v.angle.angle

/-- The magnitude computed inside `PolarVector.__add__` by the law of
cosines on the angle difference (the local variable `new_magnitude`). -/
def PolarVector.addMagnitude (a b : PolarVector) : ℝ :=
  Real.sqrt (a.magnitude ^ 2 + b.magnitude ^ 2 +
    2 * a.magnitude * b.magnitude * Real.cos (a.angle.angle - b.angle.angle))

/-- Embeds `PolarVector.__add__`: law-of-cosines magnitude; the angle comes
from `atan2` of the summed Cartesian components, except that a zero
magnitude keeps the left operand's angle. -/
def PolarVector.add (a b : PolarVector) : PolarVector :=
  if a.addMagnitude b = 0 then
    ⟨a.addMagnitude b, a.angle⟩
  else
    ⟨a.addMagnitude b, Angle.make (atan2 (a.y + b.y) (a.x + b.x) * 180 / π)⟩

/-- Embeds `PolarVector.__mul__` by a scalar. -/
def PolarVector.mul (v : PolarVector) (s : ℝ) : PolarVector :=
  ⟨v.magnitude * |s|, if s < 0 then v.angle.add (Angle.make 180) else v.angle⟩

/-- Embeds `PolarVector.__truediv__`, whose division by zero raises
`ValueError`; the failure is rendered as `none`. -/
def PolarVector.div (v : PolarVector) (s : ℝ) : Option PolarVector :=
  if s = 0 then none else some (v.mul (1 / s))

theorem fmod360_nonneg (d : ℝ) : 0 ≤ fmod360 d := by
  have h := Int.floor_le (d / 360)
  have h' : (⌊d / 360⌋ : ℝ) * 360 ≤ d := by
    rw [← le_div_iff₀ (by norm_num : (0:ℝ) < 360)]
    exact h
  unfold fmod360
  linarith

theorem fmod360_lt (d : ℝ) : fmod360 d < 360 := by
  have h := Int.lt_floor_add_one (d / 360)
  have h' : d < ((⌊d / 360⌋ : ℝ) + 1) * 360 := by
    rw [← div_lt_iff₀ (by norm_num : (0:ℝ) < 360)]
    exact h
  unfold fmod360
  linarith

theorem Angle.make_angle (d : ℝ) :
    (Angle.make d).angle = d * π / 180 + (-⌊d / 360⌋ : ℤ) * (2 * π) := by
  unfold Angle.make Angle.angle fmod360
  push_cast
  ring

theorem cos_make (d : ℝ) :
    Real.cos (Angle.make d).angle = Real.cos (d * π / 180) := by
  rw [Angle.make_angle, Real.cos_add_int_mul_two_pi]

theorem sin_make (d : ℝ) :
    Real.sin (Angle.make d).angle = Real.sin (d * π / 180) := by
  rw [Angle.make_angle, Real.sin_add_int_mul_two_pi]

theorem deg_rad_cancel (t : ℝ) : t * 180 / π * π / 180 = t := by
  field_simp

theorem cos_atan2 (y x : ℝ) (h : x ^ 2 + y ^ 2 ≠ 0) :
    Real.cos (atan2 y x) = x / Real.sqrt (x ^ 2 + y ^ 2) := by
  have hz : (⟨x, y⟩ : ℂ) ≠ 0 := by
    intro hz0
    apply h
    have hx : x = 0 := by simpa using congrArg Complex.re hz0
    have hy : y = 0 := by simpa using congrArg Complex.im hz0
    rw [hx, hy]
    ring
  unfold atan2
  rw [Complex.cos_arg hz, Complex.abs_apply, Complex.normSq_mk]
  have hring : x * x + y * y = x ^ 2 + y ^ 2 := by ring
  rw [hring]

theorem sin_atan2 (y x : ℝ) :
    Real.sin (atan2 y x) = y / Real.sqrt (x ^ 2 + y ^ 2) := by
  unfold atan2
  rw [Complex.sin_arg, Complex.abs_apply, Complex.normSq_mk]
  have hring : x * x + y * y = x ^ 2 + y ^ 2 := by ring
  rw [hring]

theorem from_cartesian_x (x y : ℝ) : (PolarVector.from_cartesian x y).x = x := by
  unfold PolarVector.from_cartesian PolarVector.x
  simp only
  rw [cos_make, deg_rad_cancel]
  by_cases h : x ^ 2 + y ^ 2 = 0
  · have hx : x = 0 := by nlinarith [sq_nonneg x, sq_nonneg y]
    rw [h, hx, Real.sqrt_zero, zero_mul]
  · rw [cos_atan2 y x h]
    have hpos : 0 < x ^ 2 + y ^ 2 := lt_of_le_of_ne (by positivity) (Ne.symm h)
    have hs : Real.sqrt (x ^ 2 + y ^ 2) ≠ 0 := ne_of_gt (Real.sqrt_pos.mpr hpos)
    field_simp

theorem from_cartesian_y (x y : ℝ) : (PolarVector.from_cartesian x y).y = y := by
  unfold PolarVector.from_cartesian PolarVector.y
  simp only
  rw [sin_make, deg_rad_cancel, sin_atan2]
  by_cases h : x ^ 2 + y ^ 2 = 0
  · have hy : y = 0 := by nlinarith [sq_nonneg x, sq_nonneg y]
    rw [hy]
    simp
  · have hpos : 0 < x ^ 2 + y ^ 2 := lt_of_le_of_ne (by positivity) (Ne.symm h)
    have hs : Real.sqrt (x ^ 2 + y ^ 2) ≠ 0 := ne_of_gt (Real.sqrt_pos.mpr hpos)
    field_simp

theorem law_of_cosines (a b : PolarVector) :
    a.magnitude ^ 2 + b.magnitude ^ 2 +
      2 * a.magnitude * b.magnitude * Real.cos (a.angle.angle - b.angle.angle) =
    (a.x + b.x) ^ 2 + (a.y + b.y) ^ 2 := by
  unfold PolarVector.x PolarVector.y
  rw [Real.cos_sub]
  have ha := Real.sin_sq_add_cos_sq a.angle.angle
  have hb := Real.sin_sq_add_cos_sq b.angle.angle
  nlinarith [ha, hb]

theorem addMagnitude_eq (a b : PolarVector) :
    a.addMagnitude b = Real.sqrt ((a.x + b.x) ^ 2 + (a.y + b.y) ^ 2) := by
  unfold PolarVector.addMagnitude
  rw [law_of_cosines]

theorem add_magnitude (a b : PolarVector) :
    (a.add b).magnitude = a.addMagnitude b := by
  unfold PolarVector.add
  split <;> rfl

theorem magnitude_zero_x (v : PolarVector) (h : v.magnitude = 0) : v.x = 0 := by
  unfold PolarVector.x
  rw [h, zero_mul]

theorem magnitude_zero_y (v : PolarVector) (h : v.magnitude = 0) : v.y = 0 := by
  unfold PolarVector.y
  rw [h, zero_mul]

theorem add_x (a b : PolarVector) : (a.add b).x = a.x + b.x := by
  by_cases hm : a.addMagnitude b = 0
  · have hS : (a.x + b.x) ^ 2 + (a.y + b.y) ^ 2 ≤ 0 := by
      rw [addMagnitude_eq] at hm
      exact Real.sqrt_eq_zero'.mp hm
    have hx0 : a.x + b.x = 0 := by nlinarith [sq_nonneg (a.x + b.x), sq_nonneg (a.y + b.y)]
    have h0 : (a.add b).magnitude = 0 := by rw [add_magnitude, hm]
    rw [magnitude_zero_x _ h0, hx0]
  · have hS : (a.x + b.x) ^ 2 + (a.y + b.y) ^ 2 ≠ 0 := by
      intro h0
      apply hm
      rw [addMagnitude_eq, h0, Real.sqrt_zero]
    have hSpos : 0 < (a.x + b.x) ^ 2 + (a.y + b.y) ^ 2 :=
      lt_of_le_of_ne (by positivity) (Ne.symm hS)
    have hsq : Real.sqrt ((a.x + b.x) ^ 2 + (a.y + b.y) ^ 2) ≠ 0 :=
      ne_of_gt (Real.sqrt_pos.mpr hSpos)
    unfold PolarVector.add
    rw [if_neg hm]
    show a.addMagnitude b * Real.cos (Angle.make (atan2 (a.y + b.y) (a.x + b.x) * 180 / π)).angle
        = a.x + b.x
    rw [cos_make, deg_rad_cancel, cos_atan2 _ _ hS, addMagnitude_eq]
    field_simp

theorem add_y (a b : PolarVector) : (a.add b).y = a.y + b.y := by
  by_cases hm : a.addMagnitude b = 0
  · have hS : (a.x + b.x) ^ 2 + (a.y + b.y) ^ 2 ≤ 0 := by
      rw [addMagnitude_eq] at hm
      exact Real.sqrt_eq_zero'.mp hm
    have hy0 : a.y + b.y = 0 := by nlinarith [sq_nonneg (a.x + b.x), sq_nonneg (a.y + b.y)]
    have h0 : (a.add b).magnitude = 0 := by rw [add_magnitude, hm]
    rw [magnitude_zero_y _ h0, hy0]
  · have hS : (a.x + b.x) ^ 2 + (a.y + b.y) ^ 2 ≠ 0 := by
      intro h0
      apply hm
      rw [addMagnitude_eq, h0, Real.sqrt_zero]
    have hSpos : 0 < (a.x + b.x) ^ 2 + (a.y + b.y) ^ 2 :=
      lt_of_le_of_ne (by positivity) (Ne.symm hS)
    have hsq : Real.sqrt ((a.x + b.x) ^ 2 + (a.y + b.y) ^ 2) ≠ 0 :=
      ne_of_gt (Real.sqrt_pos.mpr hSpos)
    unfold PolarVector.add
    rw [if_neg hm]
    show a.addMagnitude b * Real.sin (Angle.make (atan2 (a.y + b.y) (a.x + b.x) * 180 / π)).angle
        = a.y + b.y
    rw [sin_make, deg_rad_cancel, sin_atan2, addMagnitude_eq]
    field_simp

theorem addMagnitude_comm (a b : PolarVector) :
    a.addMagnitude b = b.addMagnitude a := by
  unfold PolarVector.addMagnitude
  rw [show a.angle.angle - b.angle.angle = -(b.angle.angle - a.angle.angle) by ring,
    Real.cos_neg]
  ring_nf

/-- The physical state carried by the `CircleBody` class.  The force
callback and the listener list are not part of the state record; the
embedding passes them to `update` explicitly, since `update` reads but
never replaces them. -/
structure CircleBody where
  radius : ℝ
  mass : ℝ
  position : PolarVector
  velocity : PolarVector
  acceleration : PolarVector
  applied_force : PolarVector
  last_force : PolarVector

/-- Embeds `CircleBody.__init__`: the constructor stores radius and mass
unvalidated, converts the Cartesian position, and zeroes the motion
vectors. -/
def CircleBody.init (x y radius mass : ℝ) : CircleBody :=
  { radius := radius
    mass := mass
    position := PolarVector.from_cartesian x y
    velocity := ⟨0, Angle.make 0⟩
    acceleration := ⟨0, Angle.make 0⟩
    applied_force := ⟨0, Angle.make 0⟩
    last_force := ⟨0, Angle.make 0⟩ }

/-- Embeds the `CircleBody.x` property. -/
def CircleBody.x (b : CircleBody) : ℝ := b.position.x

/-- Embeds the `CircleBody.y` property. -/
def CircleBody.y (b : CircleBody) : ℝ := b.position.y

/-- Embeds `CircleBody.apply_force`: stores the force as both
`applied_force` and `last_force`. -/
def CircleBody.applyForce (body : CircleBody) (force : PolarVector) : CircleBody :=
  { body with applied_force := force, last_force := force }

/-- Embeds `CircleBody.calculate_acceleration`: divide the magnitude by the
mass when it is positive, else the zero vector. -/
def calculate_acceleration (body : CircleBody) (force : PolarVector) : PolarVector :=
  if force.magnitude > 0 then ⟨force.magnitude / body.mass, force.angle⟩
  else ⟨0, Angle.make 0⟩

/-- The first lines of `CircleBody.update`: when a force callback is set it
is invoked at the current state and the result stored through
`apply_force`. -/
def CircleBody.sampleForce (body : CircleBody)
    (cb : Option (CircleBody → ℝ → PolarVector)) (dt : ℝ) : CircleBody :=
  match cb with
  | some f => body.applyForce (f body dt)
  | none => body

/-- The state of `CircleBody.update` after the current acceleration is
committed and the position has been advanced by the half-step formula
(Python lines up to the `from_cartesian` reassignment of the position). -/
def CircleBody.halfUpdate (body : CircleBody)
    (cb : Option (CircleBody → ℝ → PolarVector)) (dt : ℝ) : CircleBody :=
  let b1 := body.sampleForce cb dt
  let b2 := { b1 with acceleration := calculate_acceleration b1 b1.applied_force }
  { b2 with
      position := PolarVector.from_cartesian
        (b2.x + b2.velocity.x * dt + 0.5 * b2.acceleration.x * dt * dt)
        (b2.y + b2.velocity.y * dt + 0.5 * b2.acceleration.y * dt * dt) }

/-- Embeds `CircleBody.update` (velocity-Verlet integration), with the
stored force callback passed explicitly: after the position half-step the
force is re-sampled, the new acceleration derived, the velocity advanced by
the average of the two accelerations, and the applied force reset. -/
def CircleBody.update (body : CircleBody)
    (cb : Option (CircleBody → ℝ → PolarVector)) (dt : ℝ) : CircleBody :=
  let body3 := body.halfUpdate cb dt
  let new_force := match cb with
    | some f => f body3 dt
    | none => (⟨0, Angle.make 0⟩ : PolarVector)
  let new_acceleration := calculate_acceleration body3 new_force
  { body3 with
      velocity := PolarVector.from_cartesian
        (body3.velocity.x + 0.5 * (body3.acceleration.x + new_acceleration.x) * dt)
        (body3.velocity.y + 0.5 * (body3.acceleration.y + new_acceleration.y) * dt)
      acceleration := new_acceleration
      applied_force := (⟨0, Angle.make 0⟩ : PolarVector) }

/-- The listener loop at the end of `CircleBody.update`: every registered
listener is called once, in registration order, with the updated body.
The invocations are rendered as a trace of (listener, argument) pairs. -/
def notifyListeners {α : Type} (listeners : List α) (body : CircleBody) :
    List (α × CircleBody) :=
  listeners.map fun l => (l, body)

/-- `CircleBody.update` together with its final listener loop: returns the
committed state and the trace of listener invocations. -/
def updateAndNotify {α : Type} (body : CircleBody)
    (cb : Option (CircleBody → ℝ → PolarVector)) (dt : ℝ)
    (listeners : List α) : CircleBody × List (α × CircleBody) :=
  (body.update cb dt, notifyListeners listeners (body.update cb dt))

/-- The distance from the point (cx, cy) to a body, as computed inside the
force laws: `sqrt (dx*dx + dy*dy)`. -/
def distTo (cx cy : ℝ) (b : CircleBody) : ℝ :=
  Real.sqrt ((cx - b.x) * (cx - b.x) + (cy - b.y) * (cy - b.y))

/-- Embeds the closure returned by `orbital_force(center_x, center_y,
magnitude)`: zero vector inside the softening floor, else an
inverse-square force aimed at the center. -/
def orbital_force (cx cy magnitude : ℝ) (body : CircleBody) (dt : ℝ) : PolarVector :=
  if distTo cx cy body < 1 then ⟨0, Angle.make 0⟩
  else ⟨magnitude / (distTo cx cy body * distTo cx cy body),
        Angle.make (atan2 (cy - body.y) (cx - body.x) * 180 / π)⟩

open Classical in
/-- The loop body of `gravitational_force`'s inner `force_func`: skip the
queried body itself, skip pairs closer than the softening floor, otherwise
add an inverse-square contribution to the running resultant. -/
def gravitational_step (G : ℝ) (body acc_body : CircleBody) : PolarVector → PolarVector :=
  fun acc =>
    if acc_body = body then acc
    else if distTo acc_body.x acc_body.y body < 1 then acc
    else acc.add
      ⟨G * body.mass * acc_body.mass /
          (distTo acc_body.x acc_body.y body * distTo acc_body.x acc_body.y body),
        Angle.make (atan2 (acc_body.y - body.y) (acc_body.x - body.x) * 180 / π)⟩

/-- Embeds the closure returned by `gravitational_force(*bodies)`: fold the
per-body contributions onto a zero resultant with polar addition. -/
def gravitational_force (G : ℝ) (bodies : List CircleBody)
    (body : CircleBody) (dt : ℝ) : PolarVector :=
  bodies.foldl (fun acc other => gravitational_step G body other acc) ⟨0, Angle.make 0⟩

open Classical in
/-- The x-component contributed by one peer body to the gravitational
resultant: zero for the skipped cases, else the inverse-square magnitude
times the x-direction cosine toward that peer. -/
def gravContribX (G : ℝ) (body other : CircleBody) : ℝ :=
  if other = body then 0
  else if distTo other.x other.y body < 1 then 0
  else G * body.mass * other.mass / (distTo other.x other.y body) ^ 2 *
    ((other.x - body.x) / distTo other.x other.y body)

open Classical in
/-- The y-component contributed by one peer body to the gravitational
resultant. -/
def gravContribY (G : ℝ) (body other : CircleBody) : ℝ :=
  if other = body then 0
  else if distTo other.x other.y body < 1 then 0
  else G * body.mass * other.mass / (distTo other.x other.y body) ^ 2 *
    ((other.y - body.y) / distTo other.x other.y body)

theorem distTo_sq_form (cx cy : ℝ) (b : CircleBody) :
    distTo cx cy b = Real.sqrt ((cx - b.x) ^ 2 + (cy - b.y) ^ 2) := by
  unfold distTo
  ring_nf

theorem distTo_nonneg (cx cy : ℝ) (b : CircleBody) : 0 ≤ distTo cx cy b := by
  rw [distTo_sq_form]
  exact Real.sqrt_nonneg _

theorem one_le_dist_sum_ne (cx cy : ℝ) (b : CircleBody) (h : ¬ distTo cx cy b < 1) :
    (cx - b.x) ^ 2 + (cy - b.y) ^ 2 ≠ 0 := by
  intro h0
  apply h
  rw [distTo_sq_form, h0, Real.sqrt_zero]
  norm_num

theorem gravitational_step_x (G : ℝ) (body other : CircleBody) (acc : PolarVector) :
    (gravitational_step G body other acc).x = acc.x + gravContribX G body other := by
  unfold gravitational_step gravContribX
  by_cases h1 : other = body
  · rw [if_pos h1, if_pos h1, add_zero]
  · rw [if_neg h1, if_neg h1]
    by_cases h2 : distTo other.x other.y body < 1
    · rw [if_pos h2, if_pos h2, add_zero]
    · rw [if_neg h2, if_neg h2, add_x]
      congr 1
      have hne := one_le_dist_sum_ne other.x other.y body h2
      have hd : distTo other.x other.y body =
          Real.sqrt ((other.x - body.x) ^ 2 + (other.y - body.y) ^ 2) :=
        distTo_sq_form _ _ _
      unfold PolarVector.x
      rw [cos_make, deg_rad_cancel, cos_atan2 _ _ hne, hd]
      rw [← Real.sqrt_mul_self (Real.sqrt_nonneg ((other.x - body.x) ^ 2 + (other.y - body.y) ^ 2))]
      ring_nf

theorem gravitational_step_y (G : ℝ) (body other : CircleBody) (acc : PolarVector) :
    (gravitational_step G body other acc).y = acc.y + gravContribY G body other := by
  unfold gravitational_step gravContribY
  by_cases h1 : other = body
  · rw [if_pos h1, if_pos h1, add_zero]
  · rw [if_neg h1, if_neg h1]
    by_cases h2 : distTo other.x other.y body < 1
    · rw [if_pos h2, if_pos h2, add_zero]
    · rw [if_neg h2, if_neg h2, add_y]
      congr 1
      have hne := one_le_dist_sum_ne other.x other.y body h2
      have hd : distTo other.x other.y body =
          Real.sqrt ((other.x - body.x) ^ 2 + (other.y - body.y) ^ 2) :=
        distTo_sq_form _ _ _
      unfold PolarVector.y
      rw [sin_make, deg_rad_cancel, sin_atan2, hd]
      rw [← Real.sqrt_mul_self (Real.sqrt_nonneg ((other.x - body.x) ^ 2 + (other.y - body.y) ^ 2))]
      ring_nf

theorem grav_foldl_x (G : ℝ) (body : CircleBody) (l : List CircleBody) (acc : PolarVector) :
    (l.foldl (fun a other => gravitational_step G body other a) acc).x =
      acc.x + (l.map (gravContribX G body)).sum := by
  induction l generalizing acc with
  | nil => simp
  | cons hd tl ih =>
    rw [List.foldl_cons, ih, gravitational_step_x, List.map_cons, List.sum_cons]
    ring

theorem grav_foldl_y (G : ℝ) (body : CircleBody) (l : List CircleBody) (acc : PolarVector) :
    (l.foldl (fun a other => gravitational_step G body other a) acc).y =
      acc.y + (l.map (gravContribY G body)).sum := by
  induction l generalizing acc with
  | nil => simp
  | cons hd tl ih =>
    rw [List.foldl_cons, ih, gravitational_step_y, List.map_cons, List.sum_cons]
    ring

/-- Acceleration as the specification words it: the sampled force divided
by the mass, with a force of exactly zero magnitude short-circuiting to the
zero vector without dividing.  Written from the spec for the refinement
statement about `CircleBody.update`. -/
def specAcceleration (force : PolarVector) (mass : ℝ) : PolarVector :=
  if force.magnitude = 0 then ⟨0, Angle.make 0⟩
  else ⟨force.magnitude / mass, force.angle⟩

/-- The spec's picture of the body at the re-sampling point: the force
sampled at the pre-update position is stored as applied and last force, the
acceleration at the current position is committed, and the position has
been advanced by `position + velocity*dt + 0.5*acceleration*dt^2` in
Cartesian components, reconverted to polar. -/
def specHalfStep (body : CircleBody) (f : CircleBody → ℝ → PolarVector) (dt : ℝ) : CircleBody :=
  let force := f body dt
  let acc := specAcceleration force body.mass
  { body with
      applied_force := force
      last_force := force
      acceleration := acc
      position := PolarVector.from_cartesian
        (body.x + body.velocity.x * dt + 0.5 * acc.x * dt ^ 2)
        (body.y + body.velocity.y * dt + 0.5 * acc.y * dt ^ 2) }

/-- A full velocity-Verlet step as the spec describes it: half-step the
position, re-sample the force at the new position, derive the new
acceleration the same way, advance the velocity by the average of the old
and new accelerations, and reset the applied force. -/
def specVerletStep (body : CircleBody) (f : CircleBody → ℝ → PolarVector) (dt : ℝ) : CircleBody :=
  let moved := specHalfStep body f dt
  let newAcc := specAcceleration (f moved dt) moved.mass
  { moved with
      velocity := PolarVector.from_cartesian
        (moved.velocity.x + 0.5 * (moved.acceleration.x + newAcc.x) * dt)
        (moved.velocity.y + 0.5 * (moved.acceleration.y + newAcc.y) * dt)
      acceleration := newAcc
      applied_force := (⟨0, Angle.make 0⟩ : PolarVector) }

theorem calculate_acceleration_eq_spec (b : CircleBody) (F : PolarVector)
    (h : 0 ≤ F.magnitude) :
    calculate_acceleration b F = specAcceleration F b.mass := by
  unfold calculate_acceleration specAcceleration
  rcases lt_or_eq_of_le h with hpos | hzero
  · rw [if_pos hpos, if_neg (ne_of_gt hpos)]
  · rw [if_neg (by rw [← hzero]; exact lt_irrefl 0), if_pos hzero.symm]

theorem halfUpdate_eq_specHalfStep (body : CircleBody)
    (f : CircleBody → ℝ → PolarVector) (dt : ℝ)
    (hf1 : 0 ≤ (f body dt).magnitude) :
    body.halfUpdate (some f) dt = specHalfStep body f dt := by
  unfold CircleBody.halfUpdate CircleBody.sampleForce CircleBody.applyForce specHalfStep
  simp only [CircleBody.x, CircleBody.y]
  rw [calculate_acceleration_eq_spec _ _ hf1]
  congr 1 <;> ring

theorem zero_vector_x : (PolarVector.mk 0 (Angle.make 0)).x = 0 := by
  unfold PolarVector.x
  rw [zero_mul]

theorem zero_vector_y : (PolarVector.mk 0 (Angle.make 0)).y = 0 := by
  unfold PolarVector.y
  rw [zero_mul]

/-- A constant zero force law, used to instantiate theorems about
`CircleBody.update` at a concrete callback. -/
def zeroForceLaw : CircleBody → ℝ → PolarVector :=
  fun _ _ => ⟨0, Angle.make 0⟩

/-- C1: for every body with positive mass and every dt, `update` advances
the state by the velocity-Verlet scheme: acceleration is the sampled force
over the mass with zero-magnitude short-circuit, the position advances by
`position + velocity*dt + 0.5*acceleration*dt^2` in Cartesian components
reconverted to polar, the force is re-sampled at the new position, and the
velocity advances by the average of old and new accelerations. -/
theorem update_is_verlet (body : CircleBody) (f : CircleBody → ℝ → PolarVector) (dt : ℝ)
    (hm : 0 < body.mass)
    (hf1 : 0 ≤ (f body dt).magnitude)
    (hf2 : 0 ≤ (f (specHalfStep body f dt) dt).magnitude) :
    body.update (some f) dt = specVerletStep body f dt := by
  unfold CircleBody.update specVerletStep
  rw [halfUpdate_eq_specHalfStep body f dt hf1]
  simp only [calculate_acceleration_eq_spec (specHalfStep body f dt) _ hf2]

/-- Witness for C1 at a concrete body, callback and time step. -/
theorem update_is_verlet_witness :
    0 < (CircleBody.init 0 0 1 1).mass ∧
    0 ≤ (zeroForceLaw (CircleBody.init 0 0 1 1) 1).magnitude ∧
    0 ≤ (zeroForceLaw (specHalfStep (CircleBody.init 0 0 1 1) zeroForceLaw 1) 1).magnitude ∧
    (CircleBody.init 0 0 1 1).update (some zeroForceLaw) 1 =
      specVerletStep (CircleBody.init 0 0 1 1) zeroForceLaw 1 := by
  refine ⟨by norm_num [CircleBody.init], le_refl 0, le_refl 0, ?_⟩
  exact update_is_verlet (CircleBody.init 0 0 1 1) zeroForceLaw 1
    (by norm_num [CircleBody.init]) (le_refl 0) (le_refl 0)

/-- C8: after a completed `update` the applied force is the zero vector,
while the last force is not reset: with a callback set it holds the force
the callback returned at the pre-update state, without one it is unchanged;
mass and radius are unchanged either way. -/
theorem update_force_bookkeeping (body : CircleBody)
    (f : CircleBody → ℝ → PolarVector) (dt : ℝ) :
    (body.update (some f) dt).applied_force = ⟨0, Angle.make 0⟩ ∧
    (body.update none dt).applied_force = ⟨0, Angle.make 0⟩ ∧
    (body.update (some f) dt).last_force = f body dt ∧
    (body.update none dt).last_force = body.last_force ∧
    (body.update (some f) dt).mass = body.mass ∧
    (body.update (some f) dt).radius = body.radius ∧
    (body.update none dt).mass = body.mass ∧
    (body.update none dt).radius = body.radius := by
  unfold CircleBody.update CircleBody.halfUpdate CircleBody.sampleForce CircleBody.applyForce
  refine ⟨rfl, rfl, rfl, rfl, rfl, rfl, rfl, rfl⟩

/-- C9: one call to `update` invokes every registered observer exactly once
in registration order, passing the committed body; in particular two
registered observers are each invoked exactly once, in order. -/
theorem observers_notified_once_in_order {α : Type} (body : CircleBody)
    (cb : Option (CircleBody → ℝ → PolarVector)) (dt : ℝ)
    (o1 o2 : α) (listeners : List α) :
    (updateAndNotify body cb dt [o1, o2]).2 =
      [(o1, body.update cb dt), (o2, body.update cb dt)] ∧
    (updateAndNotify body cb dt listeners).2.map Prod.fst = listeners ∧
    (updateAndNotify body cb dt listeners).2.map Prod.snd =
      listeners.map fun _ => body.update cb dt := by
  refine ⟨rfl, ?_, ?_⟩ <;>
    simp [updateAndNotify, notifyListeners, List.map_map, Function.comp_def]

/-- C2: for vectors with non-negative magnitudes, polar addition agrees
with Cartesian summation componentwise, its law-of-cosines magnitude equals
the Euclidean norm of the Cartesian sum, and addition is commutative in
magnitude and in both Cartesian components. -/
theorem polar_add_agrees_with_cartesian (a b : PolarVector)
    (ha : 0 ≤ a.magnitude) (hb : 0 ≤ b.magnitude) :
    (a.add b).x = a.x + b.x ∧
    (a.add b).y = a.y + b.y ∧
    (a.add b).magnitude = Real.sqrt ((a.x + b.x) ^ 2 + (a.y + b.y) ^ 2) ∧
    (a.add b).magnitude = (b.add a).magnitude ∧
    (a.add b).x = (b.add a).x ∧
    (a.add b).y = (b.add a).y := by
  refine ⟨add_x a b, add_y a b, ?_, ?_, ?_, ?_⟩
  · rw [add_magnitude, addMagnitude_eq]
  · rw [add_magnitude, add_magnitude, addMagnitude_comm]
  · rw [add_x, add_x]
    ring
  · rw [add_y, add_y]
    ring

/-- Witness for C2 at two concrete vectors. -/
theorem polar_add_agrees_with_cartesian_witness :
    0 ≤ (PolarVector.mk 1 (Angle.make 0)).magnitude ∧
    0 ≤ (PolarVector.mk 2 (Angle.make 90)).magnitude ∧
    (((PolarVector.mk 1 (Angle.make 0)).add (PolarVector.mk 2 (Angle.make 90))).x =
        (PolarVector.mk 1 (Angle.make 0)).x + (PolarVector.mk 2 (Angle.make 90)).x ∧
      ((PolarVector.mk 1 (Angle.make 0)).add (PolarVector.mk 2 (Angle.make 90))).y =
        (PolarVector.mk 1 (Angle.make 0)).y + (PolarVector.mk 2 (Angle.make 90)).y ∧
      ((PolarVector.mk 1 (Angle.make 0)).add (PolarVector.mk 2 (Angle.make 90))).magnitude =
        Real.sqrt (((PolarVector.mk 1 (Angle.make 0)).x + (PolarVector.mk 2 (Angle.make 90)).x) ^ 2 +
          ((PolarVector.mk 1 (Angle.make 0)).y + (PolarVector.mk 2 (Angle.make 90)).y) ^ 2) ∧
      ((PolarVector.mk 1 (Angle.make 0)).add (PolarVector.mk 2 (Angle.make 90))).magnitude =
        ((PolarVector.mk 2 (Angle.make 90)).add (PolarVector.mk 1 (Angle.make 0))).magnitude ∧
      ((PolarVector.mk 1 (Angle.make 0)).add (PolarVector.mk 2 (Angle.make 90))).x =
        ((PolarVector.mk 2 (Angle.make 90)).add (PolarVector.mk 1 (Angle.make 0))).x ∧
      ((PolarVector.mk 1 (Angle.make 0)).add (PolarVector.mk 2 (Angle.make 90))).y =
        ((PolarVector.mk 2 (Angle.make 90)).add (PolarVector.mk 1 (Angle.make 0))).y) := by
  refine ⟨by norm_num, by norm_num, ?_⟩
  exact polar_add_agrees_with_cartesian (PolarVector.mk 1 (Angle.make 0))
    (PolarVector.mk 2 (Angle.make 90)) (by norm_num) (by norm_num)

/-- C3: every constructed angle carries degrees in [0, 360), the modulo is
floor-style so that -10 normalizes to 350, and angle addition and
subtraction also always land in [0, 360). -/
theorem angle_always_normalized (d : ℝ) (a b : Angle) :
    (0 ≤ (Angle.make d).degrees ∧ (Angle.make d).degrees < 360) ∧
    (Angle.make (-10)).degrees = 350 ∧
    (0 ≤ (a.add b).degrees ∧ (a.add b).degrees < 360) ∧
    (0 ≤ (a.sub b).degrees ∧ (a.sub b).degrees < 360) := by
  refine ⟨⟨fmod360_nonneg d, fmod360_lt d⟩, ?_,
    ⟨fmod360_nonneg _, fmod360_lt _⟩, ⟨fmod360_nonneg _, fmod360_lt _⟩⟩
  show fmod360 (-10) = 350
  unfold fmod360
  have hfloor : ⌊(-10 : ℝ) / 360⌋ = -1 := by
    rw [Int.floor_eq_iff]
    constructor <;> norm_num
  rw [hfloor]
  norm_num

/-- C5: vector division fails exactly on a zero scalar, and for a nonzero
scalar it scales the magnitude by the absolute reciprocal, keeping the
angle for a positive scalar and flipping it by 180 degrees for a negative
one. -/
theorem division_by_scalar (v : PolarVector) (k : ℝ) (hk : k ≠ 0) :
    v.div 0 = none ∧
    v.div k = some ⟨v.magnitude * |1 / k|,
      if k < 0 then v.angle.add (Angle.make 180) else v.angle⟩ := by
  constructor
  · unfold PolarVector.div
    rw [if_pos rfl]
  · unfold PolarVector.div PolarVector.mul
    rw [if_neg hk]
    by_cases hneg : k < 0
    · rw [if_pos hneg, if_pos (by rwa [one_div_neg])]
    · rw [if_neg hneg, if_neg (by rwa [one_div_neg])]

/-- Witness for C5 at a concrete vector and scalar. -/
theorem division_by_scalar_witness :
    (-2 : ℝ) ≠ 0 ∧
    ((PolarVector.mk 3 (Angle.make 45)).div 0 = none ∧
      (PolarVector.mk 3 (Angle.make 45)).div (-2) =
        some ⟨(PolarVector.mk 3 (Angle.make 45)).magnitude * |1 / (-2 : ℝ)|,
          if (-2 : ℝ) < 0 then (PolarVector.mk 3 (Angle.make 45)).angle.add (Angle.make 180)
          else (PolarVector.mk 3 (Angle.make 45)).angle⟩) := by
  refine ⟨by norm_num, ?_⟩
  exact division_by_scalar (PolarVector.mk 3 (Angle.make 45)) (-2) (by norm_num)

/-- C10: when the polar sum has magnitude exactly zero, the result carries
the left operand's angle and projects to the Cartesian origin. -/
theorem add_zero_magnitude_keeps_left_angle (a b : PolarVector)
    (h : (a.add b).magnitude = 0) :
    (a.add b).angle = a.angle ∧ (a.add b).x = 0 ∧ (a.add b).y = 0 := by
  have hm : a.addMagnitude b = 0 := by
    rw [← add_magnitude a b]
    exact h
  refine ⟨?_, magnitude_zero_x _ h, magnitude_zero_y _ h⟩
  unfold PolarVector.add
  rw [if_pos hm]

/-- Witness for C10: equal magnitudes at opposite angles sum to zero. -/
theorem add_zero_magnitude_keeps_left_angle_witness :
    ((PolarVector.mk 1 (Angle.make 0)).add (PolarVector.mk 1 (Angle.make 180))).magnitude = 0 ∧
    (((PolarVector.mk 1 (Angle.make 0)).add (PolarVector.mk 1 (Angle.make 180))).angle =
        (PolarVector.mk 1 (Angle.make 0)).angle ∧
      ((PolarVector.mk 1 (Angle.make 0)).add (PolarVector.mk 1 (Angle.make 180))).x = 0 ∧
      ((PolarVector.mk 1 (Angle.make 0)).add (PolarVector.mk 1 (Angle.make 180))).y = 0) := by
  have h0 : (Angle.make (0 : ℝ)).angle = 0 := by
    unfold Angle.make Angle.angle fmod360
    norm_num
  have h180 : (Angle.make (180 : ℝ)).angle = π := by
    unfold Angle.make Angle.angle fmod360
    have hfloor : ⌊(180 : ℝ) / 360⌋ = 0 := by
      rw [Int.floor_eq_iff]
      constructor <;> norm_num
    rw [hfloor]
    push_cast
    ring
  have hmag :
      ((PolarVector.mk 1 (Angle.make 0)).add (PolarVector.mk 1 (Angle.make 180))).magnitude
        = 0 := by
    rw [add_magnitude]
    unfold PolarVector.addMagnitude
    simp only [h0, h180]
    rw [zero_sub, Real.cos_neg, Real.cos_pi]
    norm_num
  exact ⟨hmag, add_zero_magnitude_keeps_left_angle _ _ hmag⟩

/-- C4 counterexample: the constructor performs no mass check, so a body
with mass -1 is constructed successfully, refuting the claim that
construction with non-positive mass fails fast. -/
theorem init_accepts_nonpositive_mass :
    (CircleBody.init 0 0 5 (-1)).mass = -1 ∧ (CircleBody.init 0 0 5 (-1)).mass ≤ 0 := by
  constructor
  · rfl
  · norm_num [CircleBody.init]

/-- C4 (amended): `CircleBody.__init__` performs no validation: for every
mass value, including non-positive ones, construction succeeds (it is a
total function) and stores the given mass and radius unchanged. -/
theorem init_stores_mass_unvalidated (x y r m : ℝ) :
    (CircleBody.init x y r m).mass = m ∧ (CircleBody.init x y r m).radius = r :=
  ⟨rfl, rfl⟩

/-- C6: the gravitational resultant's Cartesian components are the sums of
the inverse-square contributions toward every other body, skipping the
queried body itself and pairs inside the softening floor, and are therefore
independent of the order in which the pairwise contributions are added. -/
theorem gravitational_force_order_independent (G : ℝ)
    (bodies bodies' : List CircleBody) (body : CircleBody) (dt dt' : ℝ)
    (hperm : bodies.Perm bodies') :
    (gravitational_force G bodies body dt).x = (bodies.map (gravContribX G body)).sum ∧
    (gravitational_force G bodies body dt).y = (bodies.map (gravContribY G body)).sum ∧
    (gravitational_force G bodies body dt).x = (gravitational_force G bodies' body dt').x ∧
    (gravitational_force G bodies body dt).y = (gravitational_force G bodies' body dt').y := by
  have hx : ∀ (l : List CircleBody) (t : ℝ),
      (gravitational_force G l body t).x = (l.map (gravContribX G body)).sum := by
    intro l t
    unfold gravitational_force
    rw [grav_foldl_x, zero_vector_x, zero_add]
  have hy : ∀ (l : List CircleBody) (t : ℝ),
      (gravitational_force G l body t).y = (l.map (gravContribY G body)).sum := by
    intro l t
    unfold gravitational_force
    rw [grav_foldl_y, zero_vector_y, zero_add]
  refine ⟨hx bodies dt, hy bodies dt, ?_, ?_⟩
  · rw [hx bodies dt, hx bodies' dt', (hperm.map (gravContribX G body)).sum_eq]
  · rw [hy bodies dt, hy bodies' dt', (hperm.map (gravContribY G body)).sum_eq]

/-- Witness for C6 with two concrete bodies listed in both orders. -/
theorem gravitational_force_order_independent_witness :
    ([CircleBody.init 1 0 1 1, CircleBody.init 2 0 1 1] : List CircleBody).Perm
      [CircleBody.init 2 0 1 1, CircleBody.init 1 0 1 1] ∧
    ((gravitational_force 1000 [CircleBody.init 1 0 1 1, CircleBody.init 2 0 1 1]
        (CircleBody.init 0 3 1 1) 1).x =
      ([CircleBody.init 1 0 1 1, CircleBody.init 2 0 1 1].map
        (gravContribX 1000 (CircleBody.init 0 3 1 1))).sum ∧
     (gravitational_force 1000 [CircleBody.init 1 0 1 1, CircleBody.init 2 0 1 1]
        (CircleBody.init 0 3 1 1) 1).y =
      ([CircleBody.init 1 0 1 1, CircleBody.init 2 0 1 1].map
        (gravContribY 1000 (CircleBody.init 0 3 1 1))).sum ∧
     (gravitational_force 1000 [CircleBody.init 1 0 1 1, CircleBody.init 2 0 1 1]
        (CircleBody.init 0 3 1 1) 1).x =
      (gravitational_force 1000 [CircleBody.init 2 0 1 1, CircleBody.init 1 0 1 1]
        (CircleBody.init 0 3 1 1) 2).x ∧
     (gravitational_force 1000 [CircleBody.init 1 0 1 1, CircleBody.init 2 0 1 1]
        (CircleBody.init 0 3 1 1) 1).y =
      (gravitational_force 1000 [CircleBody.init 2 0 1 1, CircleBody.init 1 0 1 1]
        (CircleBody.init 0 3 1 1) 2).y) := by
  refine ⟨List.Perm.swap (CircleBody.init 2 0 1 1) (CircleBody.init 1 0 1 1) [], ?_⟩
  exact gravitational_force_order_independent 1000
    [CircleBody.init 1 0 1 1, CircleBody.init 2 0 1 1]
    [CircleBody.init 2 0 1 1, CircleBody.init 1 0 1 1]
    (CircleBody.init 0 3 1 1) 1 2
    (List.Perm.swap (CircleBody.init 2 0 1 1) (CircleBody.init 1 0 1 1) [])

/-- C7 counterexample: with a zero strength constant the force magnitude is
zero at every distance beyond the floor, so it is not strictly smaller at
distance 2 than at distance 1, refuting the unconditional strict-decrease
part of the claim. -/
theorem orbital_force_not_strictly_decreasing :
    distTo 0 0 (CircleBody.init 1 0 1 1) = 1 ∧
    distTo 0 0 (CircleBody.init 2 0 1 1) = 2 ∧
    (orbital_force 0 0 0 (CircleBody.init 1 0 1 1) 1).magnitude = 0 ∧
    (orbital_force 0 0 0 (CircleBody.init 2 0 1 1) 1).magnitude = 0 ∧
    ¬ ((orbital_force 0 0 0 (CircleBody.init 2 0 1 1) 1).magnitude <
        (orbital_force 0 0 0 (CircleBody.init 1 0 1 1) 1).magnitude) := by
  have hx1 : (CircleBody.init 1 0 1 1).x = 1 := from_cartesian_x 1 0
  have hy1 : (CircleBody.init 1 0 1 1).y = 0 := from_cartesian_y 1 0
  have hx2 : (CircleBody.init 2 0 1 1).x = 2 := from_cartesian_x 2 0
  have hy2 : (CircleBody.init 2 0 1 1).y = 0 := from_cartesian_y 2 0
  have hd1 : distTo 0 0 (CircleBody.init 1 0 1 1) = 1 := by
    unfold distTo
    rw [hx1, hy1]
    norm_num
  have hd2 : distTo 0 0 (CircleBody.init 2 0 1 1) = 2 := by
    unfold distTo
    rw [hx2, hy2]
    rw [show ((0:ℝ) - 2) * ((0:ℝ) - 2) + ((0:ℝ) - 0) * ((0:ℝ) - 0) = 2 ^ 2 by norm_num]
    exact Real.sqrt_sq (by norm_num)
  have hf1 : (orbital_force 0 0 0 (CircleBody.init 1 0 1 1) 1).magnitude = 0 := by
    unfold orbital_force
    rw [hd1]
    norm_num
  have hf2 : (orbital_force 0 0 0 (CircleBody.init 2 0 1 1) 1).magnitude = 0 := by
    unfold orbital_force
    rw [hd2]
    norm_num
  refine ⟨hd1, hd2, hf1, hf2, ?_⟩
  rw [hf1, hf2]
  exact lt_irrefl 0

/-- C7 (amended): for every strength constant M the orbital force law
returns exactly the zero vector inside the softening floor, and at distance
at least 1 it returns magnitude M / distance^2 directed from the body
toward the center; when M is positive, the magnitude strictly decreases
between any two distances beyond the floor. -/
theorem orbital_force_characterization (cx cy M : ℝ) (b b1 b2 : CircleBody)
    (dt dt1 dt2 : ℝ) :
    (distTo cx cy b < 1 → orbital_force cx cy M b dt = ⟨0, Angle.make 0⟩) ∧
    (1 ≤ distTo cx cy b →
      (orbital_force cx cy M b dt).magnitude = M / (distTo cx cy b) ^ 2 ∧
      (orbital_force cx cy M b dt).x =
        M / (distTo cx cy b) ^ 2 * ((cx - b.x) / distTo cx cy b) ∧
      (orbital_force cx cy M b dt).y =
        M / (distTo cx cy b) ^ 2 * ((cy - b.y) / distTo cx cy b)) ∧
    (0 < M → 1 ≤ distTo cx cy b1 → distTo cx cy b1 < distTo cx cy b2 →
      (orbital_force cx cy M b2 dt2).magnitude <
        (orbital_force cx cy M b1 dt1).magnitude) := by
  have hmag : ∀ (c : CircleBody) (t : ℝ), 1 ≤ distTo cx cy c →
      (orbital_force cx cy M c t).magnitude = M / (distTo cx cy c) ^ 2 := by
    intro c t hc
    unfold orbital_force
    rw [if_neg (not_lt.mpr hc)]
    show M / (distTo cx cy c * distTo cx cy c) = M / (distTo cx cy c) ^ 2
    rw [sq]
  refine ⟨?_, ?_, ?_⟩
  · intro h
    unfold orbital_force
    rw [if_pos h]
  · intro h
    have hnl : ¬ distTo cx cy b < 1 := not_lt.mpr h
    have hne := one_le_dist_sum_ne cx cy b hnl
    refine ⟨hmag b dt h, ?_, ?_⟩
    · unfold orbital_force
      rw [if_neg hnl]
      show M / (distTo cx cy b * distTo cx cy b) *
          Real.cos (Angle.make (atan2 (cy - b.y) (cx - b.x) * 180 / π)).angle =
        M / (distTo cx cy b) ^ 2 * ((cx - b.x) / distTo cx cy b)
      rw [cos_make, deg_rad_cancel, cos_atan2 _ _ hne, ← distTo_sq_form cx cy b, sq]
    · unfold orbital_force
      rw [if_neg hnl]
      show M / (distTo cx cy b * distTo cx cy b) *
          Real.sin (Angle.make (atan2 (cy - b.y) (cx - b.x) * 180 / π)).angle =
        M / (distTo cx cy b) ^ 2 * ((cy - b.y) / distTo cx cy b)
      rw [sin_make, deg_rad_cancel, sin_atan2, ← distTo_sq_form cx cy b, sq]
  · intro hM h1 h12
    have h2 : 1 ≤ distTo cx cy b2 := le_trans h1 (le_of_lt h12)
    rw [hmag b1 dt1 h1, hmag b2 dt2 h2]
    have hp1 : 0 < distTo cx cy b1 := lt_of_lt_of_le one_pos h1
    apply div_lt_div_of_pos_left hM (by positivity)
    have : 0 ≤ distTo cx cy b1 := le_of_lt hp1
    nlinarith

/-- Witness for C7 at a concrete center, strength and bodies. -/
theorem orbital_force_characterization_witness :
    (distTo 0 0 (CircleBody.init 1 0 1 1) < 1 →
        orbital_force 0 0 1 (CircleBody.init 1 0 1 1) 1 = ⟨0, Angle.make 0⟩) ∧
    (1 ≤ distTo 0 0 (CircleBody.init 1 0 1 1) →
      (orbital_force 0 0 1 (CircleBody.init 1 0 1 1) 1).magnitude =
        1 / (distTo 0 0 (CircleBody.init 1 0 1 1)) ^ 2 ∧
      (orbital_force 0 0 1 (CircleBody.init 1 0 1 1) 1).x =
        1 / (distTo 0 0 (CircleBody.init 1 0 1 1)) ^ 2 *
          ((0 - (CircleBody.init 1 0 1 1).x) / distTo 0 0 (CircleBody.init 1 0 1 1)) ∧
      (orbital_force 0 0 1 (CircleBody.init 1 0 1 1) 1).y =
        1 / (distTo 0 0 (CircleBody.init 1 0 1 1)) ^ 2 *
          ((0 - (CircleBody.init 1 0 1 1).y) / distTo 0 0 (CircleBody.init 1 0 1 1))) ∧
    ((0 : ℝ) < 1 →
      1 ≤ distTo 0 0 (CircleBody.init 1 0 1 1) →
      distTo 0 0 (CircleBody.init 1 0 1 1) < distTo 0 0 (CircleBody.init 2 0 1 1) →
      (orbital_force 0 0 1 (CircleBody.init 2 0 1 1) 1).magnitude <
        (orbital_force 0 0 1 (CircleBody.init 1 0 1 1) 1).magnitude) :=
  orbital_force_characterization 0 0 1 (CircleBody.init 1 0 1 1)
    (CircleBody.init 1 0 1 1) (CircleBody.init 2 0 1 1) 1 1 1

end

end PhysicsSim
